import Mathlib

/-
Verification of compat/win32/fscache.c (the per-thread filesystem metadata
cache). The C source is embedded shallowly: byte strings are lists of Nat
(byte values), 32-bit unsigned arithmetic is Nat arithmetic taken mod 2^32,
the thread-global errno is threaded explicitly through the lookup functions,
and the OS directory-enumeration primitive (FindFirstFileExW and friends)
is an oracle parameter classifying each directory name as enumerable,
not-found, or erroring, exactly along the three exit paths of
fsentry_create_list.
-/

/-- Byte predicate for directory separators; the win32 layer accepts both
the forward slash (47) and the backslash (92). -/
def is_dir_sep (c : Nat) : Bool := c == 47 || c == 92

/-- ASCII lower-casing as performed by the CRT tolower on byte values. -/
def tolower (c : Nat) : Nat := if 65 ≤ c ∧ c ≤ 90 then c + 32 else c

/-- Modelled from the spec: the case-insensitive byte comparison (the CRT
strnicmp) used by fsentry_cmp; compares lower-cased bytes and reports the
first difference. fsentry_cmp only calls it after checking that the lengths
agree, so the two lists have equal length at every call site. -/
def strnicmp : List Nat → List Nat → Int
  | c1 :: t1, c2 :: t2 =>
      if tolower c1 = tolower c2 then strnicmp t1 t2
      else (tolower c1 : Int) - (tolower c2 : Int)
  | _, _ => 0

/-- Modelled from the spec: the case-insensitive FNV-1 hash of the hashmap
collaborator (memihash in hashmap.c, outside src/): fold each lower-case
letter to upper case, multiply by the FNV32 prime mod 2^32, xor the byte. -/
def memihash (bytes : List Nat) : Nat :=
  bytes.foldl
    (fun h c =>
      let c2 := if 97 ≤ c ∧ c ≤ 122 then c - 32 else c
      ((h * 16777619) % 4294967296) ^^^ c2)
    2166136261

/-- The identity-relevant part of a struct fsentry: the list pointer (the
owning directory listing, or none for a listing header) and the name bytes
(the stored len is always the length of the name). Parents may recur
arbitrarily, mirroring the recursive fsentry_cmp, although the cache only
ever builds keys of depth at most one. -/
inductive FseKey : Type where
  | mk (list : Option FseKey) (name : List Nat) : FseKey

/-- Structural boolean equality on keys (the derive handler does not cover
this nested inductive, so the instance is written out). -/
def FseKey.beq : FseKey → FseKey → Bool
  | .mk none n1, .mk none n2 => n1 == n2
  | .mk (some p1) n1, .mk (some p2) n2 => FseKey.beq p1 p2 && n1 == n2
  | _, _ => false

/-- FseKey.beq decides structural equality. -/
theorem FseKey.beq_iff : ∀ a b : FseKey, (FseKey.beq a b = true) ↔ a = b
  | .mk none n1, .mk none n2 => by simp [FseKey.beq]
  | .mk (some p1) n1, .mk (some p2) n2 => by
      simp [FseKey.beq, FseKey.beq_iff p1 p2]
  | .mk none _, .mk (some _) _ => by simp [FseKey.beq]
  | .mk (some _) _, .mk none _ => by simp [FseKey.beq]

instance : DecidableEq FseKey :=
  fun a b => decidable_of_iff _ (FseKey.beq_iff a b)

/-- The list field of a key. -/
def FseKey.list : FseKey → Option FseKey
  | .mk l _ => l

/-- The name field of a key. -/
def FseKey.name : FseKey → List Nat
  | .mk _ n => n

/-- The len/name comparison at the tail of fsentry_cmp (fscache.c:80-82):
compare lengths as ints, then the bytes case-insensitively. -/
def fsentry_cmp_name (n1 n2 : List Nat) : Int :=
  if n1.length ≠ n2.length then (n1.length : Int) - (n2.length : Int)
  else strnicmp n1 n2

/-- fsentry_cmp (fscache.c:65-83) specialized to a first argument with no
list pointer. The C code substitutes the entry itself for a missing parent
(the expression fse->list ? fse->list : fse); that self-substituting
recursion is realized structurally: the parentless side stays fixed while
the other side's parent chain descends. -/
def fsentry_cmpL (n1 : List Nat) : FseKey → Int
  | .mk none n2 => fsentry_cmp_name n1 n2
  | .mk (some p2) n2 =>
      let res := fsentry_cmpL n1 p2
      if res ≠ 0 then res else fsentry_cmp_name n1 n2

/-- fsentry_cmp specialized to a second argument with no list pointer,
symmetric to fsentry_cmpL. -/
def fsentry_cmpR : FseKey → List Nat → Int
  | .mk none n1, n2 => fsentry_cmp_name n1 n2
  | .mk (some p1) n1, n2 =>
      let res := fsentry_cmpR p1 n2
      if res ≠ 0 then res else fsentry_cmp_name n1 n2

/-- fsentry_cmp (fscache.c:65-83). Equal list pointers (in particular two
NULL lists) skip the recursive comparison; otherwise the list parts are
compared first, an entry standing in for its own missing parent, and only
if the list parts compare equal are length and name compared. Two list
pointers that are the same pointer are structurally equal, so recursing on
them returns 0, which coincides with the C short-circuit. -/
def fsentry_cmp : FseKey → FseKey → Int
  | .mk none n1, .mk none n2 => fsentry_cmp_name n1 n2
  | .mk (some p1) n1, .mk none n2 =>
      let res := fsentry_cmpR p1 n2
      if res ≠ 0 then res else fsentry_cmp_name n1 n2
  | .mk none n1, .mk (some p2) n2 =>
      let res := fsentry_cmpL n1 p2
      if res ≠ 0 then res else fsentry_cmp_name n1 n2
  | .mk (some p1) n1, .mk (some p2) n2 =>
      let res := fsentry_cmp p1 p2
      if res ≠ 0 then res else fsentry_cmp_name n1 n2

/-- fsentry_hash (fscache.c:88-92): the parent's hash (0 when the list
pointer is NULL) xor the case-insensitive hash of the name. -/
def fsentry_hash : FseKey → Nat
  | .mk none n => 0 ^^^ memihash n
  | .mk (some p) n => fsentry_hash p ^^^ memihash n

/-- A timespec value. -/
structure Timespec where
  tv_sec : Int
  tv_nsec : Int
deriving DecidableEq

/-- A heap-allocated struct fsentry as stored in the cache: its key part
plus st_mode and the stat members of the union (meaningful for file
entries; listing headers overlay them with the refcount, modelled
separately for the lifetime claims). -/
structure Fsentry where
  list : Option FseKey
  name : List Nat
  st_mode : Nat
  st_size : Int
  st_atim : Timespec
  st_mtim : Timespec
  st_ctim : Timespec
deriving DecidableEq

/-- The key of a stored entry, as hashed and compared by the hashmap. -/
def Fsentry.key (e : Fsentry) : FseKey := .mk e.list e.name

/-- Modelled from the spec: hashmap equality of the Cache Table collaborator
(hashmap.c, outside src/): an entry matches a key when the hashes agree and
fsentry_cmp reports equality. -/
def fsentry_keyeq (e : Fsentry) (key : FseKey) : Bool :=
  fsentry_hash e.key == fsentry_hash key && fsentry_cmp e.key key == 0

/-- Modelled from the spec: hashmap_get of the Cache Table collaborator,
returning the most recently added entry matching the key, if any (the
table is modelled as a list with newest entries first, matching bucket-head
insertion). -/
def hashmap_get (map : List Fsentry) (key : FseKey) : Option Fsentry :=
  map.find? (fun e => fsentry_keyeq e key)

/-- Modelled from the spec: hashmap_add of the Cache Table collaborator;
insertion is unconditional, with no duplicate check. -/
def hashmap_add (map : List Fsentry) (e : Fsentry) : List Fsentry :=
  e :: map

/-- fscache_add (fscache.c:270-277): walk the listing chain (header first,
then each file entry) and hashmap_add every record. -/
def fscache_add (map : List Fsentry) (chain : List Fsentry) : List Fsentry :=
  chain.foldl (fun m e => hashmap_add m e) map

/-- struct fscache (fscache.c:17-24): the enable refcount, the hash map,
and the four counters. -/
structure Fscache where
  enabled : Int
  map : List Fsentry
  lstat_requests : Nat
  opendir_requests : Nat
  fscache_requests : Nat
  fscache_misses : Nat
deriving DecidableEq

/-- The data the directory-enumeration collaborator reports for one child
of a successfully enumerated directory, already translated to stat form
(file_attr_to_st_mode never yields a zero mode). -/
structure ChildData where
  name : List Nat
  st_mode : Nat
  st_size : Int
  st_atim : Timespec
  st_mtim : Timespec
  st_ctim : Timespec
deriving DecidableEq

/-- Outcome of one OS-level enumeration of a directory name, classifying
the three exit paths of fsentry_create_list (fscache.c:204-265): success
with the translated children; FindFirstFileExW failure, which the C code
records as dir_not_found = 1 (fscache.c:233-240); or another failure (path
conversion at fscache.c:217-219, or a FindNextFileW error at
fscache.c:254-264) with dir_not_found left 0. Each failure carries the
errno value the C code stores. -/
inductive EnumResult : Type where
  | success (children : List ChildData) : EnumResult
  | notFound (errnoVal : Nat) : EnumResult
  | error (errnoVal : Nat) : EnumResult
deriving DecidableEq

/-- An enumeration oracle: what the OS reports for each directory name. -/
def EnumOracle : Type := List Nat → EnumResult

/-- S_IFDIR, the mode given to directory listing headers. -/
def S_IFDIR : Nat := 16384

/-- ENOENT, the errno value for a missing entry. -/
def ENOENT : Nat := 2

/-- fseentry_create_entry (fscache.c:156-197): build the file entry for one
enumerated child, its list pointer naming the owning listing. The
attribute-to-mode translation and the container symlink heuristic live in
the collaborator, so the oracle supplies the final stat values. -/
def fseentry_create_entry (list : FseKey) (cd : ChildData) : Fsentry :=
  { list := some list, name := cd.name, st_mode := cd.st_mode,
    st_size := cd.st_size, st_atim := cd.st_atim, st_mtim := cd.st_mtim,
    st_ctim := cd.st_ctim }

/-- The listing header fsentry_create_list allocates (fscache.c:242-244):
no list pointer, the directory's name, mode S_IFDIR. Its union field holds
the refcount, so the stat members are left zero here. -/
def listingHeader (dirName : List Nat) : Fsentry :=
  { list := none, name := dirName, st_mode := S_IFDIR, st_size := 0,
    st_atim := ⟨0, 0⟩, st_mtim := ⟨0, 0⟩, st_ctim := ⟨0, 0⟩ }

/-- Result of fsentry_create_list: the header and child chain on success,
or failure with the dir_not_found flag and the errno value. -/
inductive ListResult : Type where
  | ok (header : Fsentry) (children : List Fsentry) : ListResult
  | fail (dir_not_found : Bool) (errnoVal : Nat) : ListResult

/-- fsentry_create_list (fscache.c:204-265) against the oracle: an OS error
other than a FindFirstFileExW failure returns failure with dir_not_found
still 0; a FindFirstFileExW failure returns failure with dir_not_found = 1;
success builds the header and one entry per child. -/
def fsentry_create_list (enum : EnumOracle) (dirName : List Nat) :
    ListResult :=
  match enum dirName with
  | .error e => .fail false e
  | .notFound e => .fail true e
  | .success cds =>
      .ok (listingHeader dirName)
        (cds.map (fseentry_create_entry (.mk none dirName)))

/-- The "cached absent" header fscache_get inserts on dir_not_found
(fscache.c:347-350): allocated from key->list->list, key->list->name, with
st_mode left 0. -/
def absentHeader (lk : FseKey) : Fsentry :=
  { list := lk.list, name := lk.name, st_mode := 0, st_size := 0,
    st_atim := ⟨0, 0⟩, st_mtim := ⟨0, 0⟩, st_ctim := ⟨0, 0⟩ }

/-- Result of one fscache_get call: the entry found (none encodes the NULL
return), the updated cache, the errno value after the call (errno is
thread state the C code may leave untouched), and how many OS enumeration
attempts the call made (0 or 1). -/
structure GetOut where
  fse : Option Fsentry
  cache : Fscache
  errno : Nat
  enumCalls : Nat
deriving DecidableEq

/-- The miss path of fscache_get (fscache.c:336-372): enumerate the owning
directory; on failure, record a cached-absent header only if
dir_not_found is set and a file was requested, and leave errno as
fsentry_create_list set it; on success, count the miss, add the whole
listing, re-probe for a requested file, treat a zero mode as non-existing,
and report ENOENT if nothing was found. -/
def fscache_miss (enum : EnumOracle) (c1 : Fscache) (errno0 : Nat)
    (key : FseKey) : GetOut :=
  match fsentry_create_list enum (key.list.getD key).name with
  | .fail dnf e =>
      match key.list with
      | some lk =>
          if dnf then
            ⟨none, { c1 with map := hashmap_add c1.map (absentHeader lk) },
             e, 1⟩
          else ⟨none, c1, e, 1⟩
      | none => ⟨none, c1, e, 1⟩
  | .ok header children =>
      let c2 : Fscache :=
        { c1 with
          fscache_misses := c1.fscache_misses + 1,
          map := fscache_add c1.map (header :: children) }
      let found : Option Fsentry :=
        match key.list with
        | some _ => hashmap_get c2.map key
        | none => some header
      match found with
      | some f =>
          if f.st_mode ≠ 0 then ⟨some f, c2, errno0, 1⟩
          else ⟨none, c2, ENOENT, 1⟩
      | none => ⟨none, c2, ENOENT, 1⟩

/-- fscache_get (fscache.c:308-373): count the request; a direct hit
returns the entry if its mode is valid and otherwise reports a
non-existing directory, in both cases leaving errno unchanged; for a file
request whose listing header is already cached, report ENOENT without any
OS call; otherwise take the miss path. -/
def fscache_get (enum : EnumOracle) (cache : Fscache) (errno0 : Nat)
    (key : FseKey) : GetOut :=
  let c1 : Fscache :=
    { cache with fscache_requests := cache.fscache_requests + 1 }
  match hashmap_get c1.map key with
  | some fse =>
      if fse.st_mode ≠ 0 then ⟨some fse, c1, errno0, 0⟩
      else ⟨none, c1, errno0, 0⟩
  | none =>
      match key.list with
      | some lk =>
          match hashmap_get c1.map lk with
          | some _ => ⟨none, c1, ENOENT, 0⟩
          | none => fscache_miss enum c1 errno0 key
      | none => fscache_miss enum c1 errno0 key

/-- Modelled from the spec: the win32 absolute-path test used by
do_fscache_enabled (is_dir_sep on the first byte, or a DOS drive prefix);
the macro lives in the compat headers, outside src/. -/
def has_dos_drive_pfx (p : List Nat) : Bool :=
  match p with
  | a :: c :: _ =>
      ((65 ≤ a && a ≤ 90) || (97 ≤ a && a ≤ 122)) && c == 58
  | _ => false

/-- Modelled from the spec: a path is absolute when it starts with a
directory separator or a DOS drive prefix. -/
def is_absolute_path (p : List Nat) : Bool :=
  (match p.head? with
   | some c => is_dir_sep c
   | none => false) || has_dos_drive_pfx p

/-- do_fscache_enabled (fscache.c:293-296): the instance is enabled and the
path is not absolute. -/
def do_fscache_enabled (cache : Fscache) (path : List Nat) : Bool :=
  cache.enabled > 0 && ! is_absolute_path path

/-- The path split of fscache_lstat (fscache.c:496-507): drop one trailing
separator, scan back to the last remaining separator to find the base of
the file name, and let the directory part be everything before that
separator (empty for the current directory). -/
def lstat_split (filename : List Nat) : List Nat × List Nat :=
  let len : Nat :=
    match filename.getLast? with
    | some c => if is_dir_sep c then filename.length - 1 else filename.length
    | none => 0
  let s := filename.take len
  let base := len - (s.reverse.takeWhile (fun c => ! is_dir_sep c)).length
  let dirlen := if base = 0 then 0 else base - 1
  (s.take dirlen, s.drop base)

/-- The stat structure fscache_lstat fills. -/
structure MingwStat where
  st_ino : Nat
  st_gid : Nat
  st_uid : Nat
  st_dev : Nat
  st_rdev : Nat
  st_nlink : Nat
  st_mode : Nat
  st_size : Int
  st_atim : Timespec
  st_mtim : Timespec
  st_ctim : Timespec
deriving DecidableEq

/-- Result of fscache_lstat: success with the filled stat data, failure
(the C return value -1, errno in the state), or fallback to the real
mingw_lstat because no enabled instance covers the path. -/
inductive LstatResult : Type where
  | ok (st : MingwStat) : LstatResult
  | err : LstatResult
  | fallback : LstatResult
deriving DecidableEq

/-- Full outcome of one fscache_lstat call. -/
structure LstatOut where
  result : LstatResult
  cache : Option Fscache
  errno : Nat
  enumCalls : Nat

/-- fscache_lstat (fscache.c:486-528): fall back when the thread has no
cache or it is not enabled for the path; otherwise count the lstat
request, split the file name, build the directory key and the file key
under it, fetch, and on success fabricate st_ino, st_gid, st_uid, st_dev
and st_rdev as 0 and st_nlink as 1 while copying st_mode, st_size and the
three timestamps from the cached entry. -/
def fscache_lstat (enum : EnumOracle) (tls : Option Fscache) (errno0 : Nat)
    (filename : List Nat) : LstatOut :=
  match tls with
  | none => ⟨.fallback, none, errno0, 0⟩
  | some cache =>
      if ¬ do_fscache_enabled cache filename then
        ⟨.fallback, some cache, errno0, 0⟩
      else
        let c1 : Fscache :=
          { cache with lstat_requests := cache.lstat_requests + 1 }
        let parts := lstat_split filename
        let dirKey : FseKey := .mk none parts.1
        let fileKey : FseKey := .mk (some dirKey) parts.2
        let g := fscache_get enum c1 errno0 fileKey
        match g.fse with
        | none => ⟨.err, some g.cache, g.errno, g.enumCalls⟩
        | some fse =>
            ⟨.ok { st_ino := 0, st_gid := 0, st_uid := 0, st_dev := 0,
                   st_rdev := 0, st_nlink := 1, st_mode := fse.st_mode,
                   st_size := fse.st_size, st_atim := fse.st_atim,
                   st_mtim := fse.st_mtim, st_ctim := fse.st_ctim },
             some g.cache, g.errno, g.enumCalls⟩

/-- fscache_clear (fscache.c:282-288): free and re-init the map and zero
the four counters; the enable refcount is untouched. -/
def fscache_clear (cache : Fscache) : Fscache :=
  { cache with
    map := [], lstat_requests := 0, opendir_requests := 0,
    fscache_misses := 0, fscache_requests := 0 }

/-- Process/thread state visible to fscache_flush: the process-wide
initialized refcount that keeps opendir and lstat redirected at the cache
implementations, and the calling thread's TLS slot. -/
structure SysState where
  initCount : Nat
  tls : Option Fscache
deriving DecidableEq

/-- fscache_flush (fscache.c:473-480): clear the calling thread's cache in
place when one exists with a nonzero enable count; nothing else changes. -/
def fscache_flush (s : SysState) : SysState :=
  match s.tls with
  | some cache =>
      if cache.enabled ≠ 0 then { s with tls := some (fscache_clear cache) }
      else s
  | none => s

/-- Outcome of fscache_merge with a destination: the source thread's TLS
slot after the call, the updated destination instance, and the process
initialized refcount after the decrement. -/
structure MergeOut where
  tls : Option Fscache
  dest : Fscache
  initCount : Nat
deriving DecidableEq

/-- fscache_merge (fscache.c:603-646) for a given destination: BUG (none)
if the calling thread has no cache; otherwise unbind the source from TLS,
add every source entry to the destination map, accumulate the four
counters, free the source, and decrement the process initialized count.
The no-destination branch merely re-enables caching and is process wiring
outside the merge algorithm. -/
def fscache_merge (tls : Option Fscache) (initCount : Nat)
    (dest : Fscache) : Option MergeOut :=
  match tls with
  | none => none
  | some cache =>
      some
        { tls := none,
          dest :=
            { dest with
              map := fscache_add dest.map cache.map,
              lstat_requests := dest.lstat_requests + cache.lstat_requests,
              opendir_requests :=
                dest.opendir_requests + cache.opendir_requests,
              fscache_requests :=
                dest.fscache_requests + cache.fscache_requests,
              fscache_misses := dest.fscache_misses + cache.fscache_misses },
          initCount := initCount - 1 }

/-- Which entry of one listing allocation an addref or release names: the
directory header itself or the i-th file entry of its chain. -/
inductive RcTarget : Type where
  | header : RcTarget
  | child (i : Nat) : RcTarget
deriving DecidableEq

/-- The state of one listing allocation for the lifetime claims: the
header's refcount (an InterlockedIncrement/Decrement counter), how many
times the allocation has been freed, and the union field of each child
(st_size and the timestamps overlay the refcount there, so a count kept
per child would corrupt precisely this data). -/
structure RcState where
  refcnt : Int
  frees : Nat
  childData : List Int
deriving DecidableEq

/-- fsentry_addref (fscache.c:127-133): if the entry has a list pointer,
step to the listing header first; then increment the header's refcount.
Child union fields are never touched. -/
def fsentry_addref (s : RcState) (t : RcTarget) : RcState :=
  match t with
  | .header => { s with refcnt := s.refcnt + 1 }
  | .child _ => { s with refcnt := s.refcnt + 1 }

/-- fsentry_release (fscache.c:138-151): step to the listing header, then
decrement its refcount; when the decremented value reaches zero, free the
whole chain (counted here as one free event). -/
def fsentry_release (s : RcState) (t : RcTarget) : RcState :=
  match t with
  | .header =>
      if s.refcnt - 1 = 0 then
        { s with refcnt := s.refcnt - 1, frees := s.frees + 1 }
      else { s with refcnt := s.refcnt - 1 }
  | .child _ =>
      if s.refcnt - 1 = 0 then
        { s with refcnt := s.refcnt - 1, frees := s.frees + 1 }
      else { s with refcnt := s.refcnt - 1 }

/-- One reference-count operation on an entry of a listing. -/
inductive RcOp : Type where
  | addref (t : RcTarget) : RcOp
  | release (t : RcTarget) : RcOp
deriving DecidableEq

/-- Run a sequence of addref/release operations on one allocation. -/
def rc_run (s : RcState) (ops : List RcOp) : RcState :=
  ops.foldl
    (fun s op =>
      match op with
      | .addref t => fsentry_addref s t
      | .release t => fsentry_release s t)
    s

/-- The allocation state right after fsentry_alloc (fscache.c:109-122):
refcount 1, not freed, with the given child union data. -/
def rc_init (childData : List Int) : RcState :=
  { refcnt := 1, frees := 0, childData := childData }

/-- Number of addref operations in a sequence. -/
def rcAdds (ops : List RcOp) : Nat :=
  ops.countP (fun op => match op with | .addref _ => true | _ => false)

/-- Number of release operations in a sequence. -/
def rcRels (ops : List RcOp) : Nat :=
  ops.countP (fun op => match op with | .release _ => true | _ => false)

/-- A true miss of the fetch algorithm: the key itself is not in the table
and, for a file request, neither is the listing header of its directory. -/
def trueMiss (cache : Fscache) (key : FseKey) : Bool :=
  (hashmap_get cache.map key).isNone &&
    (match key.list with
     | some lk => (hashmap_get cache.map lk).isNone
     | none => true)

/-- Whether an enumeration outcome is a success. -/
def EnumResult.isSuccess : EnumResult → Bool
  | .success _ => true
  | _ => false

/-
Helper lemmas shared by the claim theorems.
-/

/-- Looking anything up in an empty table yields nothing. -/
theorem hashmap_get_nil (key : FseKey) : hashmap_get [] key = none := rfl

/-- strnicmp is reflexive. -/
theorem strnicmp_self : ∀ n : List Nat, strnicmp n n = 0
  | [] => rfl
  | c :: t => by simp [strnicmp, strnicmp_self t]

/-- The name comparison is reflexive. -/
theorem fsentry_cmp_name_self (n : List Nat) : fsentry_cmp_name n n = 0 := by
  simp [fsentry_cmp_name, strnicmp_self]

/-- A true miss splits into its two probe failures. -/
theorem trueMiss_elim (cache : Fscache) (key : FseKey)
    (h : trueMiss cache key = true) :
    hashmap_get cache.map key = none ∧
      ∀ lk, key.list = some lk → hashmap_get cache.map lk = none := by
  unfold trueMiss at h
  rcases key with ⟨l, n⟩
  cases l with
  | none =>
      simp only [FseKey.list, Bool.and_eq_true, Option.isNone_iff_eq_none] at h ⊢
      exact ⟨h.1, by intro lk hlk; cases hlk⟩
  | some lk =>
      simp only [FseKey.list, Bool.and_eq_true, Option.isNone_iff_eq_none] at h ⊢
      exact ⟨h.1, by intro lk2 hlk2; cases hlk2; exact h.2⟩

/-- On a true miss, fscache_get reduces to the miss path applied to the
cache with its request counter already bumped. -/
theorem fscache_get_miss_shape (enum : EnumOracle) (cache : Fscache)
    (errno0 : Nat) (key : FseKey)
    (hmiss : hashmap_get cache.map key = none)
    (hhdr : ∀ lk, key.list = some lk → hashmap_get cache.map lk = none) :
    fscache_get enum cache errno0 key =
      fscache_miss enum
        { cache with fscache_requests := cache.fscache_requests + 1 }
        errno0 key := by
  rcases key with ⟨l, n⟩
  cases l with
  | none => simp only [fscache_get, hmiss, FseKey.list]
  | some lk =>
      simp only [fscache_get, hmiss, FseKey.list, hhdr lk rfl]

/-- The miss path always makes exactly one enumeration attempt. -/
theorem fscache_miss_enumCalls (enum : EnumOracle) (c1 : Fscache)
    (errno0 : Nat) (key : FseKey) :
    (fscache_miss enum c1 errno0 key).enumCalls = 1 := by
  unfold fscache_miss
  dsimp only
  repeat' split
  all_goals rfl

/-- fsentry_create_list when the oracle reports a true OS error. -/
theorem fsentry_create_list_error (enum : EnumOracle) (dn : List Nat)
    (e : Nat) (h : enum dn = EnumResult.error e) :
    fsentry_create_list enum dn = ListResult.fail false e := by
  unfold fsentry_create_list
  rw [h]

/-- fsentry_create_list when FindFirstFileExW fails. -/
theorem fsentry_create_list_notFound (enum : EnumOracle) (dn : List Nat)
    (e : Nat) (h : enum dn = EnumResult.notFound e) :
    fsentry_create_list enum dn = ListResult.fail true e := by
  unfold fsentry_create_list
  rw [h]

/-- fsentry_create_list when enumeration succeeds. -/
theorem fsentry_create_list_success (enum : EnumOracle) (dn : List Nat)
    (cds : List ChildData) (h : enum dn = EnumResult.success cds) :
    fsentry_create_list enum dn =
      ListResult.ok (listingHeader dn)
        (cds.map (fseentry_create_entry (.mk none dn))) := by
  unfold fsentry_create_list
  rw [h]

/-- On a true miss, fscache_get makes exactly one enumeration attempt. -/
theorem fscache_get_true_miss_enumCalls (enum : EnumOracle) (cache : Fscache)
    (errno0 : Nat) (key : FseKey)
    (hmiss : hashmap_get cache.map key = none)
    (hhdr : ∀ lk, key.list = some lk → hashmap_get cache.map lk = none) :
    (fscache_get enum cache errno0 key).enumCalls = 1 := by
  rw [fscache_get_miss_shape enum cache errno0 key hmiss hhdr]
  exact fscache_miss_enumCalls ..

/-- A one-element cache holding a directory whose name is d, probed with the
header key for d, answers with that entry. -/
theorem hashmap_get_self_header (e : Fsentry) (rest : List Fsentry)
    (he : e.list = none) :
    hashmap_get (e :: rest) (FseKey.mk none e.name) = some e := by
  have hk : e.key = FseKey.mk none e.name := by
    simp [Fsentry.key, he]
  simp [hashmap_get, List.find?_cons, fsentry_keyeq, hk, fsentry_cmp,
    fsentry_cmp_name_self]

/-
Concrete fixtures used by witnesses and counterexamples.
-/

/-- An enabled cache instance with an empty table and zeroed counters. -/
def cacheEmpty : Fscache :=
  { enabled := 1, map := [], lstat_requests := 0, opendir_requests := 0,
    fscache_requests := 0, fscache_misses := 0 }

/-- An oracle whose directories all fail enumeration with dir_not_found
set and errno ENOENT. -/
def enumNF : EnumOracle := fun _ => EnumResult.notFound 2

/-- An oracle whose directories all fail enumeration with a true OS error
(errno 13, permission denied), dir_not_found clear. -/
def enumErr : EnumOracle := fun _ => EnumResult.error 13

/-- The listing-header key for a directory named d (byte 100). -/
def keyD : FseKey := .mk none [100]

/-- The file key for a file named f (byte 102) inside directory d. -/
def keyDF : FseKey := .mk (some keyD) [102]

/-- An enabled cache that already holds a cached-absent header for d. -/
def cacheAbsD : Fscache :=
  { enabled := 1, map := [absentHeader keyD], lstat_requests := 0,
    opendir_requests := 0, fscache_requests := 0, fscache_misses := 0 }

/-- C1: when enumeration fails with a true OS error (dir_not_found not
set), fscache_get returns NULL with that errno, inserts nothing, and a
repeat of the same query enumerates again. -/
theorem C1_enum_error_never_cached (enum : EnumOracle) (cache : Fscache)
    (errno0 errno1 : Nat) (key : FseKey) (e : Nat)
    (hmiss : trueMiss cache key = true)
    (herr : enum ((key.list.getD key).name) = EnumResult.error e) :
    (fscache_get enum cache errno0 key).fse = none ∧
    (fscache_get enum cache errno0 key).errno = e ∧
    (fscache_get enum cache errno0 key).cache.map = cache.map ∧
    (fscache_get enum cache errno0 key).enumCalls = 1 ∧
    (fscache_get enum (fscache_get enum cache errno0 key).cache errno1
        key).enumCalls = 1 := by
  obtain ⟨h1, h2⟩ := trueMiss_elim cache key hmiss
  have hrun : fscache_get enum cache errno0 key =
      ⟨none, { cache with fscache_requests := cache.fscache_requests + 1 },
        e, 1⟩ := by
    rw [fscache_get_miss_shape enum cache errno0 key h1 h2]
    unfold fscache_miss
    rw [fsentry_create_list_error enum _ e herr]
    rcases hk : key.list with _ | lk <;> simp [hk]
  rw [hrun]
  refine ⟨rfl, rfl, rfl, rfl, ?_⟩
  exact fscache_get_true_miss_enumCalls enum _ errno1 key h1 h2

/-- C1 witness: a concrete run of the theorem on an empty cache, a file
key, and a permission-denied oracle. -/
theorem C1_enum_error_never_cached_witness :
    trueMiss cacheEmpty keyDF = true ∧
    enumErr ((keyDF.list.getD keyDF).name) = EnumResult.error 13 ∧
    ((fscache_get enumErr cacheEmpty 0 keyDF).fse = none ∧
      (fscache_get enumErr cacheEmpty 0 keyDF).errno = 13 ∧
      (fscache_get enumErr cacheEmpty 0 keyDF).cache.map = cacheEmpty.map ∧
      (fscache_get enumErr cacheEmpty 0 keyDF).enumCalls = 1 ∧
      (fscache_get enumErr (fscache_get enumErr cacheEmpty 0 keyDF).cache 7
          keyDF).enumCalls = 1) :=
  ⟨by decide, rfl,
    C1_enum_error_never_cached enumErr cacheEmpty 0 7 keyDF 13 (by decide)
      rfl⟩

/-- C4 counterexample: a listing-header request (the key of resolveListing
has no list part) that misses and whose enumeration reports
directory-not-found inserts nothing into the Cache Table, refuting the
claim's "regardless of whether the original request was for a listing
header or for a specific child". -/
theorem C4_counterexample :
    trueMiss cacheEmpty keyD = true ∧
    enumNF ((keyD.list.getD keyD).name) = EnumResult.notFound 2 ∧
    (fscache_get enumNF cacheEmpty 0 keyD).fse = none ∧
    (fscache_get enumNF cacheEmpty 0 keyD).cache.map = [] :=
  ⟨by decide, rfl, rfl, rfl⟩

/-- C4 (amended): on a true miss whose enumeration reports
directory-not-found, the cached-absent header is inserted only when the
original request was for a specific child (key->list set); a
listing-header request inserts nothing; not-found is reported either
way. -/
theorem C4_absent_cached_only_for_child_requests (enum : EnumOracle)
    (cache : Fscache) (errno0 : Nat) (key : FseKey) (e : Nat)
    (hmiss : trueMiss cache key = true)
    (hnf : enum ((key.list.getD key).name) = EnumResult.notFound e) :
    (fscache_get enum cache errno0 key).fse = none ∧
    (fscache_get enum cache errno0 key).cache.map =
      (match key.list with
       | some lk => absentHeader lk :: cache.map
       | none => cache.map) := by
  obtain ⟨h1, h2⟩ := trueMiss_elim cache key hmiss
  rw [fscache_get_miss_shape enum cache errno0 key h1 h2]
  unfold fscache_miss
  rw [fsentry_create_list_notFound enum _ e hnf]
  rcases hk : key.list with _ | lk <;> simp [hk, hashmap_add]

/-- C4 witness: a concrete child-request run inserting the absent header. -/
theorem C4_absent_cached_only_for_child_requests_witness :
    trueMiss cacheEmpty keyDF = true ∧
    enumNF ((keyDF.list.getD keyDF).name) = EnumResult.notFound 2 ∧
    ((fscache_get enumNF cacheEmpty 0 keyDF).fse = none ∧
      (fscache_get enumNF cacheEmpty 0 keyDF).cache.map =
        (match keyDF.list with
         | some lk => absentHeader lk :: cacheEmpty.map
         | none => cacheEmpty.map)) :=
  ⟨by decide, rfl,
    C4_absent_cached_only_for_child_requests enumNF cacheEmpty 0 keyDF 2
      (by decide) rfl⟩

/-- C7 counterexample: a true miss (empty table, child request) whose
enumeration fails leaves the miss counter untouched, refuting the claim
that every true miss increments it by exactly one. -/
theorem C7_counterexample :
    trueMiss cacheEmpty keyDF = true ∧
    (fscache_get enumNF cacheEmpty 0 keyDF).cache.fscache_misses =
      cacheEmpty.fscache_misses :=
  ⟨by decide, rfl⟩

/-- C7 (amended): the miss counter is incremented by exactly one on a true
miss whose enumeration succeeds, and is unchanged on every other outcome
(hit, cache-confirmed absence, or a true miss whose enumeration fails). -/
theorem C7_miss_counter_counts_successful_enumerations (enum : EnumOracle)
    (cache : Fscache) (errno0 : Nat) (key : FseKey) :
    (fscache_get enum cache errno0 key).cache.fscache_misses =
      cache.fscache_misses +
        (if trueMiss cache key = true ∧
            (enum ((key.list.getD key).name)).isSuccess = true
         then 1 else 0) := by
  unfold fscache_get trueMiss
  dsimp only
  rcases hg : hashmap_get cache.map key with _ | fse
  · rcases hk : key.list with _ | lk
    · unfold fscache_miss fsentry_create_list
      rw [hk]
      dsimp only [Option.getD]
      rcases he : enum key.name with cds | e | e <;>
        simp only [he, EnumResult.isSuccess] <;>
        (repeat' split) <;> simp_all
    · rcases hh : hashmap_get cache.map lk with _ | hdr
      · unfold fscache_miss fsentry_create_list
        rw [hk]
        dsimp only [Option.getD]
        rcases he : enum lk.name with cds | e | e <;>
          simp only [he, EnumResult.isSuccess] <;>
          (repeat' split) <;> simp_all
      · simp_all
  · (repeat' split) <;> simp_all

/-- The miss path on a directory-not-found enumeration returns NULL with
the errno stored by fsentry_create_list. -/
theorem fscache_miss_notFound_errno (enum : EnumOracle) (c1 : Fscache)
    (errno0 : Nat) (key : FseKey) (e : Nat)
    (h : fsentry_create_list enum ((key.list.getD key).name) =
      ListResult.fail true e) :
    (fscache_miss enum c1 errno0 key).fse = none ∧
    (fscache_miss enum c1 errno0 key).errno = e := by
  unfold fscache_miss
  rw [h]
  dsimp only
  repeat' split <;> exact ⟨rfl, rfl⟩

/-- The miss path on a successful enumeration either returns an entry with
errno untouched, or returns NULL with errno ENOENT. -/
theorem fscache_miss_ok_errno (enum : EnumOracle) (c1 : Fscache)
    (errno0 : Nat) (key : FseKey) (hd : Fsentry) (ch : List Fsentry)
    (h : fsentry_create_list enum ((key.list.getD key).name) =
      ListResult.ok hd ch) :
    (∃ f, (fscache_miss enum c1 errno0 key).fse = some f ∧
      (fscache_miss enum c1 errno0 key).errno = errno0) ∨
    ((fscache_miss enum c1 errno0 key).fse = none ∧
      (fscache_miss enum c1 errno0 key).errno = ENOENT) := by
  unfold fscache_miss
  rw [h]
  dsimp only
  repeat' split
  · exact .inl ⟨_, rfl, rfl⟩
  · exact .inr ⟨rfl, rfl⟩
  · exact .inr ⟨rfl, rfl⟩

/-- C5 counterexample: a direct hit on a cached-absent header is a
not-found outcome of fetch, yet errno is left at its prior value (here 5)
instead of being set to ENOENT, refuting the claim for that path. -/
theorem C5_counterexample :
    hashmap_get cacheAbsD.map keyD = some (absentHeader keyD) ∧
    (fscache_get enumNF cacheAbsD 5 keyD).fse = none ∧
    (fscache_get enumNF cacheAbsD 5 keyD).enumCalls = 0 ∧
    (fscache_get enumNF cacheAbsD 5 keyD).errno = 5 ∧
    (fscache_get enumNF cacheAbsD 5 keyD).errno ≠ ENOENT := by
  decide

/-- C5 (amended): every not-found outcome of fetch other than a direct hit
on a cached entry with unset mode is reported with errno ENOENT, provided
the enumeration collaborator reports errno ENOENT for a nonexistent
directory (a direct cached-absent hit instead leaves errno unchanged, as
C5_counterexample shows). -/
theorem C5_not_found_reports_enoent (enum : EnumOracle) (cache : Fscache)
    (errno0 : Nat) (key : FseKey)
    (hnohit : hashmap_get cache.map key = none)
    (henum : enum ((key.list.getD key).name) = EnumResult.notFound ENOENT ∨
      ∃ cds, enum ((key.list.getD key).name) = EnumResult.success cds)
    (hnone : (fscache_get enum cache errno0 key).fse = none) :
    (fscache_get enum cache errno0 key).errno = ENOENT := by
  unfold fscache_get at hnone ⊢
  dsimp only at hnone ⊢
  rw [hnohit] at hnone ⊢
  dsimp only at hnone ⊢
  rcases hk : key.list with _ | lk
  · rw [hk] at hnone
    dsimp only at hnone ⊢
    rcases henum with hnf | ⟨cds, hs⟩
    · exact (fscache_miss_notFound_errno enum _ errno0 key ENOENT
        (fsentry_create_list_notFound enum _ ENOENT hnf)).2
    · rcases fscache_miss_ok_errno enum
          { cache with fscache_requests := cache.fscache_requests + 1 }
          errno0 key _ _
          (fsentry_create_list_success enum _ cds hs) with
        ⟨f, hf, _⟩ | ⟨_, he⟩
      · rw [hf] at hnone; cases hnone
      · exact he
  · rw [hk] at hnone
    dsimp only at hnone ⊢
    rcases hh : hashmap_get cache.map lk with _ | hdr
    · rw [hh] at hnone
      dsimp only at hnone ⊢
      rcases henum with hnf | ⟨cds, hs⟩
      · exact (fscache_miss_notFound_errno enum _ errno0 key ENOENT
          (fsentry_create_list_notFound enum _ ENOENT hnf)).2
      · rcases fscache_miss_ok_errno enum
            { cache with fscache_requests := cache.fscache_requests + 1 }
            errno0 key _ _
            (fsentry_create_list_success enum _ cds hs) with
          ⟨f, hf, _⟩ | ⟨_, he⟩
        · rw [hf] at hnone; cases hnone
        · exact he
    · rfl

/-- C5 witness: a concrete not-found run through the enumeration path
reporting ENOENT. -/
theorem C5_not_found_reports_enoent_witness :
    hashmap_get cacheEmpty.map keyDF = none ∧
    enumNF ((keyDF.list.getD keyDF).name) = EnumResult.notFound ENOENT ∧
    (fscache_get enumNF cacheEmpty 0 keyDF).fse = none ∧
    (fscache_get enumNF cacheEmpty 0 keyDF).errno = ENOENT :=
  ⟨rfl, rfl, rfl,
    C5_not_found_reports_enoent enumNF cacheEmpty 0 keyDF rfl (Or.inl rfl)
      rfl⟩

/-- Both match arms of fsentry_addref perform the same header increment. -/
theorem fsentry_addref_eq (s : RcState) (t : RcTarget) :
    fsentry_addref s t = { s with refcnt := s.refcnt + 1 } := by
  cases t <;> rfl

/-- Both match arms of fsentry_release perform the same header decrement
and conditional free. -/
theorem fsentry_release_eq (s : RcState) (t : RcTarget) :
    fsentry_release s t =
      if s.refcnt - 1 = 0 then
        { s with refcnt := s.refcnt - 1, frees := s.frees + 1 }
      else { s with refcnt := s.refcnt - 1 } := by
  cases t <;> rfl

/-- Counting addrefs at the head of a sequence. -/
theorem rcAdds_addref_cons (t : RcTarget) (rest : List RcOp) :
    rcAdds (RcOp.addref t :: rest) = rcAdds rest + 1 := by
  simp [rcAdds, List.countP_cons]

/-- A release at the head does not change the addref count. -/
theorem rcAdds_release_cons (t : RcTarget) (rest : List RcOp) :
    rcAdds (RcOp.release t :: rest) = rcAdds rest := by
  simp [rcAdds, List.countP_cons]

/-- An addref at the head does not change the release count. -/
theorem rcRels_addref_cons (t : RcTarget) (rest : List RcOp) :
    rcRels (RcOp.addref t :: rest) = rcRels rest := by
  simp [rcRels, List.countP_cons]

/-- Counting releases at the head of a sequence. -/
theorem rcRels_release_cons (t : RcTarget) (rest : List RcOp) :
    rcRels (RcOp.release t :: rest) = rcRels rest + 1 := by
  simp [rcRels, List.countP_cons]

/-- There are no addrefs in the empty sequence. -/
theorem rcAdds_nil : rcAdds [] = 0 := rfl

/-- There are no releases in the empty sequence. -/
theorem rcRels_nil : rcRels [] = 0 := rfl

/-- Running one listing allocation through a sequence of addref/release
operations that never releases a dead reference (every proper prefix keeps
the count at least 1): the final count is the initial count plus addrefs
minus releases, the chain is freed exactly once if and only if the final
count is zero, and no child union data is ever modified. -/
theorem rc_run_spec : ∀ (ops : List RcOp) (s : RcState),
    1 ≤ s.refcnt →
    (∀ n, n < ops.length →
      (1 : Int) ≤ s.refcnt + rcAdds (ops.take n) - rcRels (ops.take n)) →
    (rc_run s ops).refcnt = s.refcnt + rcAdds ops - rcRels ops ∧
    (rc_run s ops).frees = s.frees +
      (if (rc_run s ops).refcnt = 0 then 1 else 0) ∧
    (rc_run s ops).childData = s.childData := by
  intro ops
  induction ops with
  | nil =>
      intro s h1 h2
      have hne : ¬ ((rc_run s []).refcnt = 0) := by
        simp only [rc_run, List.foldl_nil]
        omega
      refine ⟨?_, ?_, rfl⟩
      · simp [rc_run, rcAdds, rcRels]
      · simp [rc_run, List.foldl_nil] at hne ⊢
        omega
  | cons op rest ih =>
      intro s h1 h2
      cases op with
      | addref t =>
          have hstep : rc_run s (RcOp.addref t :: rest) =
              rc_run { s with refcnt := s.refcnt + 1 } rest := by
            simp [rc_run, fsentry_addref_eq]
          have h1' : (1 : Int) ≤
              ({ s with refcnt := s.refcnt + 1 } : RcState).refcnt := by
            show (1 : Int) ≤ s.refcnt + 1
            omega
          have h2' : ∀ n, n < rest.length →
              (1 : Int) ≤
                ({ s with refcnt := s.refcnt + 1 } : RcState).refcnt +
                  rcAdds (rest.take n) - rcRels (rest.take n) := by
            intro n hn
            have := h2 (n + 1) (by simpa using Nat.succ_lt_succ hn)
            simp only [List.take_succ_cons, rcAdds_addref_cons,
              rcRels_addref_cons] at this
            show (1 : Int) ≤ s.refcnt + 1 + _ - _
            push_cast at this ⊢
            omega
          obtain ⟨ha, hb, hc⟩ := ih { s with refcnt := s.refcnt + 1 } h1' h2'
          rw [hstep]
          refine ⟨?_, ?_, hc⟩
          · rw [ha]
            simp only [rcAdds_addref_cons, rcRels_addref_cons]
            show s.refcnt + 1 + _ - _ = s.refcnt + _ - _
            push_cast
            omega
          · rw [hb]
      | release t =>
          have h0 : (1 : Int) ≤ s.refcnt := h1
          by_cases hz : s.refcnt - 1 = 0
          · cases rest with
            | nil =>
                have hrun : rc_run s [RcOp.release t] =
                    { s with
                      refcnt := s.refcnt - 1,
                      frees := s.frees + 1 } := by
                  simp [rc_run, fsentry_release_eq, hz]
                rw [hrun]
                refine ⟨?_, ?_, rfl⟩
                · simp only [rcAdds_release_cons, rcRels_release_cons,
                    rcAdds_nil, rcRels_nil]
                  show s.refcnt - 1 = s.refcnt + _ - _
                  push_cast
                  omega
                · show s.frees + 1 = s.frees + (if s.refcnt - 1 = 0 then 1 else 0)
                  rw [if_pos hz]
            | cons r rs =>
                exfalso
                have := h2 1 (by simp)
                simp only [List.take_succ_cons, List.take_zero,
                  rcAdds_release_cons, rcRels_release_cons, rcAdds_nil,
                  rcRels_nil] at this
                push_cast at this
                omega
          · have hstep : rc_run s (RcOp.release t :: rest) =
                rc_run { s with refcnt := s.refcnt - 1 } rest := by
              simp [rc_run, fsentry_release_eq, hz]
            have h1' : (1 : Int) ≤
                ({ s with refcnt := s.refcnt - 1 } : RcState).refcnt := by
              show (1 : Int) ≤ s.refcnt - 1
              omega
            have h2' : ∀ n, n < rest.length →
                (1 : Int) ≤
                  ({ s with refcnt := s.refcnt - 1 } : RcState).refcnt +
                    rcAdds (rest.take n) - rcRels (rest.take n) := by
              intro n hn
              have := h2 (n + 1) (by simpa using Nat.succ_lt_succ hn)
              simp only [List.take_succ_cons, rcRels_release_cons,
                rcAdds_release_cons] at this
              show (1 : Int) ≤ s.refcnt - 1 + _ - _
              push_cast at this ⊢
              omega
            obtain ⟨ha, hb, hc⟩ :=
              ih { s with refcnt := s.refcnt - 1 } h1' h2'
            rw [hstep]
            refine ⟨?_, ?_, hc⟩
            · rw [ha]
              simp only [rcAdds_release_cons, rcRels_release_cons]
              show s.refcnt - 1 + _ - _ = s.refcnt + _ - _
              push_cast
              omega
            · rw [hb]

/-- C2: over any sequence of acquire/release operations on entries of one
listing whose every proper prefix keeps at least one live reference, the
final header count is 1 (the allocating reference) plus addrefs minus
releases, the single backing allocation is freed at most once, it is freed
exactly once precisely when the count reaches zero, it is never freed
while references remain (every proper prefix has zero frees), and no
per-child union field is ever touched; acquiring or releasing through a
child operates on the owning header's count. -/
theorem C2_listing_refcount_lifetime (ops : List RcOp) (cd : List Int)
    (hvalid : ∀ n, n < ops.length →
      rcRels (ops.take n) ≤ rcAdds (ops.take n)) :
    (rc_run (rc_init cd) ops).refcnt =
      1 + (rcAdds ops : Int) - rcRels ops ∧
    (rc_run (rc_init cd) ops).frees ≤ 1 ∧
    ((rc_run (rc_init cd) ops).frees = 1 ↔
      (rc_run (rc_init cd) ops).refcnt = 0) ∧
    (∀ n, n < ops.length → (rc_run (rc_init cd) (ops.take n)).frees = 0) ∧
    (rc_run (rc_init cd) ops).childData = cd := by
  have hvalid2 : ∀ n, n < ops.length →
      (1 : Int) ≤ (rc_init cd).refcnt + rcAdds (ops.take n) -
        rcRels (ops.take n) := by
    intro n hn
    have := hvalid n hn
    simp only [rc_init]
    omega
  obtain ⟨ha, hb, hc⟩ :=
    rc_run_spec ops (rc_init cd) (by simp [rc_init]) hvalid2
  have hinit : (rc_init cd).refcnt = 1 := rfl
  have hfr : (rc_init cd).frees = 0 := rfl
  refine ⟨by rw [ha, hinit], ?_, ?_, ?_, hc.trans rfl⟩
  · rw [hb, hfr]
    split <;> omega
  · rw [hb, hfr]
    split <;> rename_i h <;> simp [h]
  · intro n hn
    have hvn : ∀ m, m < (ops.take n).length →
        (1 : Int) ≤ (rc_init cd).refcnt + rcAdds ((ops.take n).take m) -
          rcRels ((ops.take n).take m) := by
      intro m hm
      rw [List.take_take]
      have hmn : m < n := by
        have := hm
        rw [List.length_take] at this
        omega
      rw [Nat.min_eq_left (Nat.le_of_lt hmn)]
      exact hvalid2 m (by
        rw [List.length_take] at hm
        omega)
    obtain ⟨ha2, hb2, _⟩ :=
      rc_run_spec (ops.take n) (rc_init cd) (by simp [rc_init]) hvn
    have hpos : (rc_run (rc_init cd) (ops.take n)).refcnt ≠ 0 := by
      rw [ha2, hinit]
      have := hvalid n hn
      have hto : rcRels ((ops.take n)) ≤ rcAdds ((ops.take n)) := this
      omega
    rw [hb2, hfr, if_neg hpos]

/-- C2 witness: one addref through a child, a release through the header,
and a final release through the child free the allocation exactly at the
last release. -/
theorem C2_listing_refcount_lifetime_witness :
    (∀ n, n < ([RcOp.addref (RcTarget.child 0), RcOp.release RcTarget.header,
        RcOp.release (RcTarget.child 0)] : List RcOp).length →
      rcRels (([RcOp.addref (RcTarget.child 0),
          RcOp.release RcTarget.header,
          RcOp.release (RcTarget.child 0)] : List RcOp).take n) ≤
        rcAdds (([RcOp.addref (RcTarget.child 0),
            RcOp.release RcTarget.header,
            RcOp.release (RcTarget.child 0)] : List RcOp).take n)) ∧
    ((rc_run (rc_init [7])
        [RcOp.addref (RcTarget.child 0), RcOp.release RcTarget.header,
          RcOp.release (RcTarget.child 0)]).refcnt =
      1 + (rcAdds [RcOp.addref (RcTarget.child 0),
          RcOp.release RcTarget.header,
          RcOp.release (RcTarget.child 0)] : Int) -
        rcRels [RcOp.addref (RcTarget.child 0),
          RcOp.release RcTarget.header,
          RcOp.release (RcTarget.child 0)] ∧
      (rc_run (rc_init [7])
        [RcOp.addref (RcTarget.child 0), RcOp.release RcTarget.header,
          RcOp.release (RcTarget.child 0)]).frees ≤ 1 ∧
      ((rc_run (rc_init [7])
          [RcOp.addref (RcTarget.child 0), RcOp.release RcTarget.header,
            RcOp.release (RcTarget.child 0)]).frees = 1 ↔
        (rc_run (rc_init [7])
          [RcOp.addref (RcTarget.child 0), RcOp.release RcTarget.header,
            RcOp.release (RcTarget.child 0)]).refcnt = 0) ∧
      (∀ n, n < ([RcOp.addref (RcTarget.child 0),
          RcOp.release RcTarget.header,
          RcOp.release (RcTarget.child 0)] : List RcOp).length →
        (rc_run (rc_init [7])
          (([RcOp.addref (RcTarget.child 0), RcOp.release RcTarget.header,
              RcOp.release (RcTarget.child 0)] : List RcOp).take n)).frees =
          0) ∧
      (rc_run (rc_init [7])
        [RcOp.addref (RcTarget.child 0), RcOp.release RcTarget.header,
          RcOp.release (RcTarget.child 0)]).childData = [7]) :=
  ⟨by decide,
    C2_listing_refcount_lifetime
      [RcOp.addref (RcTarget.child 0), RcOp.release RcTarget.header,
        RcOp.release (RcTarget.child 0)] [7] (by decide)⟩

/-- Adding a chain of entries grows the table by the chain's length. -/
theorem fscache_add_length : ∀ (chain m : List Fsentry),
    (fscache_add m chain).length = m.length + chain.length
  | [], m => by simp [fscache_add]
  | e :: t, m => by
      have h := fscache_add_length t (hashmap_add m e)
      simp only [fscache_add, List.foldl_cons] at h ⊢
      rw [h]
      simp [hashmap_add]
      omega

/-- C8: merging a worker instance with M entries into a primary with N
entries leaves the primary with N+M entries and each of its four counters
equal to its prior value plus the worker's, and unbinds the worker from
its thread's TLS slot (so it is no longer reachable there); the source
instance is consumed. The table admits duplicate keys, so the count holds
for any pair of instances, in particular for the disjoint subtrees the
claim assumes. -/
theorem C8_merge_counts (src dest : Fscache) (iCount : Nat) :
    ∃ out, fscache_merge (some src) iCount dest = some out ∧
      out.tls = none ∧
      out.dest.map.length = dest.map.length + src.map.length ∧
      out.dest.lstat_requests = dest.lstat_requests + src.lstat_requests ∧
      out.dest.opendir_requests =
        dest.opendir_requests + src.opendir_requests ∧
      out.dest.fscache_requests =
        dest.fscache_requests + src.fscache_requests ∧
      out.dest.fscache_misses = dest.fscache_misses + src.fscache_misses ∧
      out.initCount = iCount - 1 := by
  refine ⟨_, rfl, rfl, ?_, rfl, rfl, rfl, rfl, rfl⟩
  exact fscache_add_length src.map dest.map

/-- C9: for a thread with an active, enabled instance, flush empties the
table and zeroes the four counters in place, leaving the enable refcount,
the thread binding, and the process-wide initialized count (which governs
the opendir/lstat redirection) unchanged; any subsequent query on the
flushed instance makes an enumeration attempt. -/
theorem C9_flush_clears_in_place (s : SysState) (c : Fscache)
    (enum : EnumOracle) (errno0 : Nat) (key : FseKey)
    (h1 : s.tls = some c) (h2 : 0 < c.enabled) :
    (fscache_flush s).initCount = s.initCount ∧
    (fscache_flush s).tls = some
      { c with
        map := [], lstat_requests := 0, opendir_requests := 0,
        fscache_requests := 0, fscache_misses := 0 } ∧
    (fscache_clear c).enabled = c.enabled ∧
    (fscache_get enum (fscache_clear c) errno0 key).enumCalls = 1 := by
  have hne : c.enabled ≠ 0 := by omega
  have hflush : fscache_flush s = { s with tls := some (fscache_clear c) } := by
    unfold fscache_flush
    rw [h1]
    simp [hne]
  refine ⟨by rw [hflush], ?_, rfl, ?_⟩
  · rw [hflush]
    rfl
  · refine fscache_get_true_miss_enumCalls enum (fscache_clear c) errno0 key
      rfl ?_
    intro lk _
    rfl

/-- C9 witness: flushing a concrete bound, enabled instance holding one
entry, then querying it again. -/
theorem C9_flush_clears_in_place_witness :
    (SysState.mk 3 (some cacheAbsD)).tls = some cacheAbsD ∧
    0 < cacheAbsD.enabled ∧
    ((fscache_flush (SysState.mk 3 (some cacheAbsD))).initCount =
        (SysState.mk 3 (some cacheAbsD)).initCount ∧
      (fscache_flush (SysState.mk 3 (some cacheAbsD))).tls = some
        { cacheAbsD with
          map := [], lstat_requests := 0, opendir_requests := 0,
          fscache_requests := 0, fscache_misses := 0 } ∧
      (fscache_clear cacheAbsD).enabled = cacheAbsD.enabled ∧
      (fscache_get enumNF (fscache_clear cacheAbsD) 0 keyD).enumCalls =
        1) :=
  ⟨rfl, by decide,
    C9_flush_clears_in_place (SysState.mk 3 (some cacheAbsD)) cacheAbsD
      enumNF 0 keyD rfl (by decide)⟩

/-- C10: whenever fscache_lstat answers a query (result ok), the identity
fields of the returned stat data are fabricated constants — st_ino,
st_uid, st_gid, st_dev and st_rdev are 0 and st_nlink is 1 — while
st_mode, st_size and the three timestamps are copied from the entry the
fetch returned. -/
theorem C10_lstat_fabricated_identity (enum : EnumOracle) (cache : Fscache)
    (errno0 : Nat) (filename : List Nat) (st : MingwStat)
    (hon : do_fscache_enabled cache filename = true)
    (h : (fscache_lstat enum (some cache) errno0 filename).result =
      LstatResult.ok st) :
    ∃ fse,
      (fscache_get enum
          { cache with lstat_requests := cache.lstat_requests + 1 } errno0
          (FseKey.mk (some (FseKey.mk none (lstat_split filename).1))
            (lstat_split filename).2)).fse = some fse ∧
      st.st_ino = 0 ∧ st.st_gid = 0 ∧ st.st_uid = 0 ∧ st.st_dev = 0 ∧
      st.st_rdev = 0 ∧ st.st_nlink = 1 ∧
      st.st_mode = fse.st_mode ∧ st.st_size = fse.st_size ∧
      st.st_atim = fse.st_atim ∧ st.st_mtim = fse.st_mtim ∧
      st.st_ctim = fse.st_ctim := by
  unfold fscache_lstat at h
  simp only [hon, Bool.true_eq_false, not_true_eq_false, if_false,
    Bool.not_true, ite_false] at h
  rcases hg : (fscache_get enum
      { cache with lstat_requests := cache.lstat_requests + 1 } errno0
      (FseKey.mk (some (FseKey.mk none (lstat_split filename).1))
        (lstat_split filename).2)).fse with _ | fse
  · rw [hg] at h
    cases h
  · rw [hg] at h
    simp only [LstatResult.ok.injEq] at h
    subst h
    exact ⟨fse, rfl, rfl, rfl, rfl, rfl, rfl, rfl, rfl, rfl, rfl, rfl, rfl⟩

/-- A concrete regular-file entry for f inside d. -/
def entryDF : Fsentry :=
  { list := some keyD, name := [102], st_mode := 33188, st_size := 5,
    st_atim := ⟨1, 2⟩, st_mtim := ⟨3, 4⟩, st_ctim := ⟨5, 6⟩ }

/-- A cache that already holds the listing of d and the entry for d/f. -/
def cacheDF : Fscache :=
  { enabled := 1, map := [entryDF, listingHeader [100]],
    lstat_requests := 0, opendir_requests := 0, fscache_requests := 0,
    fscache_misses := 0 }

/-- The path d/f as bytes. -/
def fnDF : List Nat := [100, 47, 102]

/-- The stat data fscache_lstat produces for the cached d/f entry. -/
def stDF : MingwStat :=
  { st_ino := 0, st_gid := 0, st_uid := 0, st_dev := 0, st_rdev := 0,
    st_nlink := 1, st_mode := 33188, st_size := 5, st_atim := ⟨1, 2⟩,
    st_mtim := ⟨3, 4⟩, st_ctim := ⟨5, 6⟩ }

/-- C10 witness: a concrete cache-hit lstat run with fabricated identity
fields. -/
theorem C10_lstat_fabricated_identity_witness :
    do_fscache_enabled cacheDF fnDF = true ∧
    (fscache_lstat enumNF (some cacheDF) 0 fnDF).result =
      LstatResult.ok stDF ∧
    (∃ fse,
      (fscache_get enumNF
          { cacheDF with lstat_requests := cacheDF.lstat_requests + 1 } 0
          (FseKey.mk (some (FseKey.mk none (lstat_split fnDF).1))
            (lstat_split fnDF).2)).fse = some fse ∧
      stDF.st_ino = 0 ∧ stDF.st_gid = 0 ∧ stDF.st_uid = 0 ∧
      stDF.st_dev = 0 ∧ stDF.st_rdev = 0 ∧ stDF.st_nlink = 1 ∧
      stDF.st_mode = fse.st_mode ∧ stDF.st_size = fse.st_size ∧
      stDF.st_atim = fse.st_atim ∧ stDF.st_mtim = fse.st_mtim ∧
      stDF.st_ctim = fse.st_ctim) :=
  ⟨by decide, by decide,
    C10_lstat_fabricated_identity enumNF cacheDF 0 fnDF stDF (by decide)
      (by decide)⟩

/-- Equal name lengths and case-insensitively equal name bytes, the name
part of the spec's key-equality wording. -/
def sameNameCI (n1 n2 : List Nat) : Bool :=
  n1.length == n2.length && n1.map tolower == n2.map tolower

/-- Modelled from the spec: key equality exactly as the claim words it —
recursively equal parent identities, with no parent comparing equal only
to no parent, equal name lengths, and case-insensitive byte equality of
the names. Used only to compare the claim against fsentry_cmp. -/
def specKeyEq : FseKey → FseKey → Bool
  | .mk none n1, .mk none n2 => sameNameCI n1 n2
  | .mk (some p1) n1, .mk (some p2) n2 => specKeyEq p1 p2 && sameNameCI n1 n2
  | _, _ => false

/-- The amended key-equality relation: like the spec's wording, except
that when exactly one side has no parent, that side itself stands in for
its missing parent identity (the source expression
fse->list ? fse->list : fse), so a parentless key can compare equal to a
key with a parent. -/
def amendedKeyEq : FseKey → FseKey → Bool
  | .mk none n1, .mk none n2 => sameNameCI n1 n2
  | .mk (some p1) n1, .mk none n2 =>
      amendedKeyEq p1 (.mk none n2) && sameNameCI n1 n2
  | .mk none n1, .mk (some p2) n2 =>
      amendedKeyEq (.mk none n1) p2 && sameNameCI n1 n2
  | .mk (some p1) n1, .mk (some p2) n2 =>
      amendedKeyEq p1 p2 && sameNameCI n1 n2
termination_by a b => sizeOf a + sizeOf b

/-- strnicmp decides case-insensitive equality of equal-length byte
strings. -/
theorem strnicmp_eq_zero_iff : ∀ n1 n2 : List Nat, n1.length = n2.length →
    (strnicmp n1 n2 = 0 ↔ n1.map tolower = n2.map tolower)
  | [], [], _ => by simp [strnicmp]
  | [], _ :: _, h => by simp at h
  | _ :: _, [], h => by simp at h
  | c1 :: t1, c2 :: t2, h => by
      have ht : t1.length = t2.length := by simpa using h
      by_cases hc : tolower c1 = tolower c2
      · simp [strnicmp, hc, strnicmp_eq_zero_iff t1 t2 ht]
      · have hi : ((tolower c1 : Int) - tolower c2) ≠ 0 := by
          intro h0
          apply hc
          omega
        simp [strnicmp, hc, hi]

/-- The len/name comparison reports zero exactly on case-insensitive name
agreement. -/
theorem fsentry_cmp_name_eq_zero_iff (n1 n2 : List Nat) :
    fsentry_cmp_name n1 n2 = 0 ↔ sameNameCI n1 n2 = true := by
  unfold fsentry_cmp_name sameNameCI
  by_cases h : n1.length = n2.length
  · simp [h, strnicmp_eq_zero_iff n1 n2 h]
  · have hi : ((n1.length : Int) - n2.length) ≠ 0 := by
      intro h0
      apply h
      omega
    simp [h, hi]

/-- fsentry_cmpR computes fsentry_cmp against a parentless second key. -/
theorem fsentry_cmpR_eq (e1 : FseKey) (n2 : List Nat) :
    fsentry_cmpR e1 n2 = fsentry_cmp e1 (.mk none n2) := by
  rcases e1 with ⟨l, n1⟩
  cases l <;> rfl

/-- fsentry_cmpL computes fsentry_cmp from a parentless first key. -/
theorem fsentry_cmpL_eq (n1 : List Nat) (e2 : FseKey) :
    fsentry_cmpL n1 e2 = fsentry_cmp (.mk none n1) e2 := by
  rcases e2 with ⟨l, n2⟩
  cases l <;> rfl

/-- The branch combinator of fsentry_cmp is zero exactly when both the
recursive result and the name comparison are zero. -/
theorem cmp_step_eq_zero_iff (res x : Int) :
    (if res ≠ 0 then res else x) = 0 ↔ res = 0 ∧ x = 0 := by
  by_cases h : res = 0 <;> simp [h]

/-- fsentry_cmp reports equality precisely as described by the amended
key-equality relation. -/
theorem fsentry_cmp_eq_zero_iff : ∀ a b : FseKey,
    fsentry_cmp a b = 0 ↔ amendedKeyEq a b = true
  | .mk none n1, .mk none n2 => by
      rw [show fsentry_cmp (FseKey.mk none n1) (FseKey.mk none n2) =
            fsentry_cmp_name n1 n2 from rfl]
      simp [amendedKeyEq, fsentry_cmp_name_eq_zero_iff]
  | .mk (some p1) n1, .mk none n2 => by
      have ih := fsentry_cmp_eq_zero_iff p1 (.mk none n2)
      rw [← fsentry_cmpR_eq p1 n2] at ih
      rw [show fsentry_cmp (FseKey.mk (some p1) n1) (FseKey.mk none n2) =
            (if fsentry_cmpR p1 n2 ≠ 0 then fsentry_cmpR p1 n2
             else fsentry_cmp_name n1 n2) from rfl]
      rw [cmp_step_eq_zero_iff]
      simp [amendedKeyEq, ih, fsentry_cmp_name_eq_zero_iff]
  | .mk none n1, .mk (some p2) n2 => by
      have ih := fsentry_cmp_eq_zero_iff (.mk none n1) p2
      rw [← fsentry_cmpL_eq n1 p2] at ih
      rw [show fsentry_cmp (FseKey.mk none n1) (FseKey.mk (some p2) n2) =
            (if fsentry_cmpL n1 p2 ≠ 0 then fsentry_cmpL n1 p2
             else fsentry_cmp_name n1 n2) from rfl]
      rw [cmp_step_eq_zero_iff]
      simp [amendedKeyEq, ih, fsentry_cmp_name_eq_zero_iff]
  | .mk (some p1) n1, .mk (some p2) n2 => by
      have ih := fsentry_cmp_eq_zero_iff p1 p2
      rw [show fsentry_cmp (FseKey.mk (some p1) n1)
            (FseKey.mk (some p2) n2) =
            (if fsentry_cmp p1 p2 ≠ 0 then fsentry_cmp p1 p2
             else fsentry_cmp_name n1 n2) from rfl]
      rw [cmp_step_eq_zero_iff]
      simp [amendedKeyEq, ih, fsentry_cmp_name_eq_zero_iff]
termination_by a b => sizeOf a + sizeOf b

/-- A five-byte name whose memihash is zero, found by meet-in-the-middle
search over the FNV-1 steps. -/
def magicName : List Nat := [25, 152, 143, 53, 2]

/-- C6 counterexample: the parentless listing-header key for magicName and
the child key magicName-under-magicName compare equal under fsentry_cmp
and even carry equal hashes (memihash magicName = 0), so the Cache Table
treats them as the same key, yet the spec's wording — no parent comparing
equal only to no parent — declares them unequal. -/
theorem C6_counterexample :
    fsentry_cmp (FseKey.mk none magicName)
      (FseKey.mk (some (FseKey.mk none magicName)) magicName) = 0 ∧
    fsentry_hash (FseKey.mk none magicName) =
      fsentry_hash (FseKey.mk (some (FseKey.mk none magicName))
        magicName) ∧
    specKeyEq (FseKey.mk none magicName)
      (FseKey.mk (some (FseKey.mk none magicName)) magicName) = false := by
  refine ⟨by decide, by decide, by decide⟩

/-- The key fscache_lstat builds for a path: the file-name part keyed
under the parentless directory key. -/
def keyOfPath (filename : List Nat) : FseKey :=
  .mk (some (.mk none (lstat_split filename).1)) (lstat_split filename).2

/-- C6 (amended): two keys compare equal under fsentry_cmp if and only if
their parent identities compare equal recursively — with a side that has
no parent standing in itself for its parent identity, so "no parent" can
compare equal to a parented key with matching names — their name lengths
are equal and their name bytes are equal case-insensitively; consequently
the lstat keys of Dir/File and dir/file agree in comparison and hash and
so resolve to the same cached entry. -/
theorem C6_key_equality_amended :
    (∀ a b : FseKey, fsentry_cmp a b = 0 ↔ amendedKeyEq a b = true) ∧
    fsentry_cmp (keyOfPath [68, 105, 114, 47, 70, 105, 108, 101])
      (keyOfPath [100, 105, 114, 47, 102, 105, 108, 101]) = 0 ∧
    fsentry_hash (keyOfPath [68, 105, 114, 47, 70, 105, 108, 101]) =
      fsentry_hash (keyOfPath [100, 105, 114, 47, 102, 105, 108, 101]) :=
  ⟨fsentry_cmp_eq_zero_iff, by decide, by decide⟩

/-- takeWhile runs past a prefix all of whose elements satisfy the
predicate. -/
theorem takeWhile_append_of_all {α : Type _} (p : α → Bool) :
    ∀ (l1 l2 : List α), (∀ c ∈ l1, p c = true) →
      (l1 ++ l2).takeWhile p = l1 ++ l2.takeWhile p
  | [], l2, _ => by simp
  | a :: t, l2, h => by
      have ha : p a = true := h a (List.mem_cons_self a t)
      rw [List.cons_append, List.takeWhile_cons, if_pos ha,
        takeWhile_append_of_all p t l2
          (fun c hc => h c (List.mem_cons_of_mem a hc)),
        List.cons_append]

/-- The fscache_lstat path split of dir ++ separator ++ name, for a
nonempty file name containing no separators, recovers the directory part
and the name part. -/
theorem lstat_split_dir_file (d f : List Nat) (hf : f ≠ [])
    (hfns : ∀ c ∈ f, is_dir_sep c = false) :
    lstat_split (d ++ 47 :: f) = (d, f) := by
  have hg : (d ++ 47 :: f).getLast? = some (f.getLast hf) := by
    rw [show d ++ 47 :: f = (d ++ [47]) ++ f by simp]
    rw [List.getLast?_append_of_ne_nil _ hf]
    exact List.getLast?_eq_getLast_of_ne_nil hf
  have hlastf : is_dir_sep (f.getLast hf) = false :=
    hfns _ (List.getLast_mem hf)
  have htw : List.takeWhile (fun c => ! is_dir_sep c)
      (d ++ 47 :: f).reverse = f.reverse := by
    have h1 : (d ++ 47 :: f).reverse = f.reverse ++ 47 :: d.reverse := by
      simp
    rw [h1, takeWhile_append_of_all _ f.reverse _
      (fun c hc => by simp [hfns c (List.mem_reverse.mp hc)])]
    rw [List.takeWhile_cons]
    simp [is_dir_sep]
  have hbase : (d ++ 47 :: f).length - f.length = d.length + 1 := by
    simp only [List.length_append, List.length_cons]
    omega
  have hdrop : (d ++ 47 :: f).drop (d.length + 1) = f := by
    rw [show d ++ 47 :: f = (d ++ [47]) ++ f by simp]
    rw [show d.length + 1 = (d ++ [47]).length by simp]
    exact List.drop_left _ f
  unfold lstat_split
  rw [hg]
  dsimp only
  rw [hlastf]
  simp only [Bool.false_eq_true, if_false]
  rw [List.take_length, htw, List.length_reverse, hbase]
  simp only [Nat.succ_ne_zero, if_false, Nat.add_sub_cancel]
  rw [List.take_left, hdrop]

/-- C3: with caching enabled on an empty instance, a first lstat of
d-slash-f for a nonexistent directory d makes exactly one enumeration
attempt and reports not-found, and a second identical lstat reports
not-found with zero further enumeration attempts (the cached-absent header
answers it). -/
theorem C3_negative_caching (enum : EnumOracle) (cache : Fscache)
    (errno0 errno1 e : Nat) (d f : List Nat)
    (hf : f ≠ []) (hfns : ∀ c ∈ f, is_dir_sep c = false)
    (habs : is_absolute_path (d ++ 47 :: f) = false)
    (hen : 0 < cache.enabled) (hmap : cache.map = [])
    (hd : enum d = EnumResult.notFound e) :
    (fscache_lstat enum (some cache) errno0 (d ++ 47 :: f)).result =
      LstatResult.err ∧
    (fscache_lstat enum (some cache) errno0 (d ++ 47 :: f)).enumCalls = 1 ∧
    (fscache_lstat enum
        (fscache_lstat enum (some cache) errno0 (d ++ 47 :: f)).cache
        errno1 (d ++ 47 :: f)).result = LstatResult.err ∧
    (fscache_lstat enum
        (fscache_lstat enum (some cache) errno0 (d ++ 47 :: f)).cache
        errno1 (d ++ 47 :: f)).enumCalls = 0 := by
  have hsplit := lstat_split_dir_file d f hf hfns
  have hon : do_fscache_enabled cache (d ++ 47 :: f) = true := by
    unfold do_fscache_enabled
    simp [habs, hen]
  have hm1 : hashmap_get
      ({ cache with lstat_requests := cache.lstat_requests + 1 } :
        Fscache).map (FseKey.mk (some (FseKey.mk none d)) f) = none := by
    show hashmap_get cache.map _ = none
    rw [hmap]
    rfl
  have hh1 : ∀ lk, (FseKey.mk (some (FseKey.mk none d)) f).list = some lk →
      hashmap_get ({ cache with
        lstat_requests := cache.lstat_requests + 1 } : Fscache).map lk =
        none := by
    intro lk _
    show hashmap_get cache.map lk = none
    rw [hmap]
    rfl
  have hget1 : fscache_get enum
      { cache with lstat_requests := cache.lstat_requests + 1 } errno0
      (FseKey.mk (some (FseKey.mk none d)) f) =
      ⟨none,
        { enabled := cache.enabled,
          map := absentHeader (FseKey.mk none d) :: cache.map,
          lstat_requests := cache.lstat_requests + 1,
          opendir_requests := cache.opendir_requests,
          fscache_requests := cache.fscache_requests + 1,
          fscache_misses := cache.fscache_misses }, e, 1⟩ := by
    rw [fscache_get_miss_shape enum _ errno0 _ hm1 hh1]
    unfold fscache_miss
    rw [show ((FseKey.mk (some (FseKey.mk none d)) f).list.getD
          (FseKey.mk (some (FseKey.mk none d)) f)).name = d from rfl]
    rw [fsentry_create_list_notFound enum d e hd]
    rfl
  have hrun1 : fscache_lstat enum (some cache) errno0 (d ++ 47 :: f) =
      ⟨LstatResult.err,
        some
          { enabled := cache.enabled,
            map := absentHeader (FseKey.mk none d) :: cache.map,
            lstat_requests := cache.lstat_requests + 1,
            opendir_requests := cache.opendir_requests,
            fscache_requests := cache.fscache_requests + 1,
            fscache_misses := cache.fscache_misses }, e, 1⟩ := by
    unfold fscache_lstat
    dsimp only
    rw [if_neg (by simp [hon])]
    rw [hsplit]
    dsimp only
    rw [hget1]
  have hkeq : fsentry_keyeq (absentHeader (FseKey.mk none d))
      (FseKey.mk none d) = true := by
    unfold fsentry_keyeq
    rw [show (absentHeader (FseKey.mk none d)).key = FseKey.mk none d from
      rfl]
    rw [show fsentry_cmp (FseKey.mk none d) (FseKey.mk none d) =
      fsentry_cmp_name d d from rfl]
    rw [fsentry_cmp_name_self]
    simp
  have hget2 : ∀ c1 : Fscache,
      c1.map = [absentHeader (FseKey.mk none d)] →
      (fscache_get enum c1 errno1
        (FseKey.mk (some (FseKey.mk none d)) f)).fse = none ∧
      (fscache_get enum c1 errno1
        (FseKey.mk (some (FseKey.mk none d)) f)).enumCalls = 0 := by
    intro c1 hc1
    unfold fscache_get
    dsimp only
    rw [hc1]
    by_cases hpred : fsentry_keyeq (absentHeader (FseKey.mk none d))
        (FseKey.mk (some (FseKey.mk none d)) f) = true
    · rw [show hashmap_get [absentHeader (FseKey.mk none d)]
          (FseKey.mk (some (FseKey.mk none d)) f) =
          some (absentHeader (FseKey.mk none d)) from by
        unfold hashmap_get
        exact @List.find?_cons_of_pos _
          (fun e => fsentry_keyeq e (FseKey.mk (some (FseKey.mk none d)) f))
          (absentHeader (FseKey.mk none d)) [] hpred]
      dsimp only [absentHeader]
      rw [if_neg (by simp)]
      exact ⟨rfl, rfl⟩
    · rw [show hashmap_get [absentHeader (FseKey.mk none d)]
          (FseKey.mk (some (FseKey.mk none d)) f) = none from by
        unfold hashmap_get
        rw [@List.find?_cons_of_neg _
          (fun e => fsentry_keyeq e (FseKey.mk (some (FseKey.mk none d)) f))
          (absentHeader (FseKey.mk none d)) [] (by simpa using hpred)]
        rfl]
      dsimp only [FseKey.list]
      rw [show hashmap_get [absentHeader (FseKey.mk none d)]
          (FseKey.mk none d) =
          some (absentHeader (FseKey.mk none d)) from by
        unfold hashmap_get
        exact @List.find?_cons_of_pos _
          (fun e => fsentry_keyeq e (FseKey.mk none d))
          (absentHeader (FseKey.mk none d)) [] hkeq]
      exact ⟨rfl, rfl⟩
  have hsecond : ∀ cMid : Fscache,
      cMid.map = [absentHeader (FseKey.mk none d)] →
      0 < cMid.enabled →
      (fscache_lstat enum (some cMid) errno1 (d ++ 47 :: f)).result =
        LstatResult.err ∧
      (fscache_lstat enum (some cMid) errno1 (d ++ 47 :: f)).enumCalls =
        0 := by
    intro cMid hm he2
    have hon2 : do_fscache_enabled cMid (d ++ 47 :: f) = true := by
      unfold do_fscache_enabled
      simp [habs, he2]
    unfold fscache_lstat
    dsimp only
    rw [if_neg (by simp [hon2])]
    rw [hsplit]
    dsimp only
    obtain ⟨h1, h2⟩ := hget2
      { cMid with lstat_requests := cMid.lstat_requests + 1 } hm
    constructor
    · rw [h1]
    · rw [h1]
      exact h2
  refine ⟨by rw [hrun1], by rw [hrun1], ?_, ?_⟩
  · rw [hrun1]
    exact (hsecond
      { enabled := cache.enabled,
        map := absentHeader (FseKey.mk none d) :: cache.map,
        lstat_requests := cache.lstat_requests + 1,
        opendir_requests := cache.opendir_requests,
        fscache_requests := cache.fscache_requests + 1,
        fscache_misses := cache.fscache_misses }
      (by rw [hmap]) hen).1
  · rw [hrun1]
    exact (hsecond
      { enabled := cache.enabled,
        map := absentHeader (FseKey.mk none d) :: cache.map,
        lstat_requests := cache.lstat_requests + 1,
        opendir_requests := cache.opendir_requests,
        fscache_requests := cache.fscache_requests + 1,
        fscache_misses := cache.fscache_misses }
      (by rw [hmap]) hen).2

/-- C3 witness: a concrete double lstat of d/f with d nonexistent — one
enumeration on the first call, none on the second. -/
theorem C3_negative_caching_witness :
    ([102] : List Nat) ≠ [] ∧
    (∀ c ∈ ([102] : List Nat), is_dir_sep c = false) ∧
    is_absolute_path ([100] ++ 47 :: [102]) = false ∧
    0 < cacheEmpty.enabled ∧
    cacheEmpty.map = [] ∧
    enumNF [100] = EnumResult.notFound 2 ∧
    ((fscache_lstat enumNF (some cacheEmpty) 0
        ([100] ++ 47 :: [102])).result = LstatResult.err ∧
      (fscache_lstat enumNF (some cacheEmpty) 0
        ([100] ++ 47 :: [102])).enumCalls = 1 ∧
      (fscache_lstat enumNF
          (fscache_lstat enumNF (some cacheEmpty) 0
            ([100] ++ 47 :: [102])).cache 3
          ([100] ++ 47 :: [102])).result = LstatResult.err ∧
      (fscache_lstat enumNF
          (fscache_lstat enumNF (some cacheEmpty) 0
            ([100] ++ 47 :: [102])).cache 3
          ([100] ++ 47 :: [102])).enumCalls = 0) :=
  ⟨by decide, by decide, by decide, by decide, rfl, rfl,
    C3_negative_caching enumNF cacheEmpty 0 3 2 [100] [102] (by decide)
      (by decide) (by decide) (by decide) rfl rfl⟩
